import Mathlib

/-!
# Verification of draft-js core algorithms

Shallow embedding of the three source components under scrutiny:

* `src/model/transaction/randomizeBlockMapKeys.js` — the Rekeyer;
* `src/component/handlers/composition/DraftEditorCompositionHandler.js` —
  composition session / resolution;
* `src/component/handlers/edit/editOnFocus.js` — focus handling.

Block maps are Immutable.js `OrderedMap`s; we embed them as association
lists of key/value pairs in insertion order.  The tree rekeyer runs inside
`blockMap.withMutations(state => state.forEach(...))`.  In Immutable.js 3.x
(the version draft-js depends on) the iterator of `forEach` is created
before any mutation happens; the first `setIn` on the freshly `asMutable`d
copy copy-on-writes every trie node it touches (the node `ownerID`s still
belong to the original map), so the already-started iterator keeps reading
the *original* entry tuples while `get`/`setIn` observe the *mutated* map.
The embedding therefore folds over the original entry list (the snapshot
seen by `forEach`) while threading the mutated ("live") association list.

`generateRandomKey` is not part of the sources; the functions are
parameterised by a key supply `fresh : Nat → K` (one fresh key is drawn per
visited block, in order), and freshness/injectivity are explicit hypotheses
where a claim needs them.
-/

section Rekeyer

variable {K : Type} [DecidableEq K]

/-- A flat `ContentBlock`: no structural links.  Only the fields the claims
inspect (`key`, `text`) are carried. -/
structure ContentBlock (K : Type) where
  key : K
  text : String
deriving DecidableEq, Repr

/-- A tree `ContentBlockNode`: adds the structural link fields
(`nextSibling`, `prevSibling`, `parent`, `children`). -/
structure ContentBlockNode (K : Type) where
  key : K
  text : String
  nextSibling : Option K := none
  prevSibling : Option K := none
  parent : Option K := none
  children : List K := []
deriving DecidableEq, Repr

/-- Association-list lookup, i.e. `OrderedMap.get` (keys are unique in an
`OrderedMap`, so first-match lookup is exact). -/
def mapGet (m : List (K × α)) (k : K) : Option α :=
  match m with
  | [] => none
  | e :: tl => if e.1 = k then some e.2 else mapGet tl k

/-- `OrderedMap.get(k)` truthiness test (`has`). -/
def mapHas (m : List (K × α)) (k : K) : Bool :=
  (mapGet m k).isSome

/-- Value update at an existing key (Immutable `setIn([k, field], v)`:
the position of the entry is unchanged; a missing key is untouched — every
`setIn` in the source is guarded so the key always exists). -/
def mapUpd (m : List (K × α)) (k : K) (f : α → α) : List (K × α) :=
  m.map (fun e => if e.1 = k then (e.1, f e.2) else e)

/-- `OrderedMap(entries)` construction: a repeated key keeps its first
position and takes its last value. -/
def orderedMapOfEntries (l : List (K × α)) : List (K × α) :=
  l.foldl (fun acc e =>
    if mapHas acc e.1 then mapUpd acc e.1 (fun _ => e.2) else acc ++ [e]) []

/-- Immutable `list.set(list.indexOf(old), new)`: replaces the first
occurrence of `old`; when `old` is absent `indexOf` is `-1` and `set(-1)`
writes the *last* slot (on an empty list it materialises a one-slot list). -/
def immutableIndexSet (l : List K) (old new : K) : List K :=
  if old ∈ l then l.set (l.indexOf old) new
  else if l = [] then [new]
  else l.set (l.length - 1) new

/-- The mutable state threaded through the `forEach` pass of
`randomizeContentBlockNodeKeys`. -/
structure NodeRekeyState (K : Type) where
  /-- the live (mutated) block map, still keyed by the old keys -/
  live : List (K × ContentBlockNode K)
  /-- `newKeysRef`: old key → freshly generated key -/
  newKeysRef : List (K × K)
  /-- `lastRootBlock` — only its `key` field is ever read -/
  lastRootKey : Option K
  /-- how many keys have been drawn from the supply -/
  counter : Nat

/-- One iteration of the `forEach` body of `randomizeContentBlockNodeKeys`
(source lines 34–103).  `b` is the snapshot block delivered by the
iterator; all reads of *other* blocks go through the live map. -/
def nodeRekeyStep (fresh : Nat → K) (st : NodeRekeyState K)
    (b : ContentBlockNode K) : NodeRekeyState K :=
  let oldKey := b.key
  let key := fresh st.counter
  let ref := (oldKey, key) :: st.newKeysRef
  -- nextSibling handling (lines 47–55)
  let live := match b.nextSibling with
    | some nk =>
      if mapHas st.live nk then
        mapUpd st.live nk (fun nb => { nb with prevSibling := some key })
      else
        mapUpd st.live oldKey (fun cb => { cb with nextSibling := none })
    | none => st.live
  -- prevSibling handling (lines 57–65)
  let live := match b.prevSibling with
    | some pk =>
      if mapHas live pk then
        mapUpd live pk (fun pb => { pb with nextSibling := some key })
      else
        mapUpd live oldKey (fun cb => { cb with prevSibling := none })
    | none => live
  -- parent / root handling (lines 67–90)
  let rootCase : List (K × ContentBlockNode K) × Option K :=
    let live1 := mapUpd live oldKey (fun cb => { cb with parent := none })
    let live2 := match st.lastRootKey with
      | some lrk =>
        mapUpd
          (mapUpd live1 lrk (fun lb => { lb with nextSibling := some key }))
          oldKey (fun cb => { cb with prevSibling := mapGet ref lrk })
      | none => live1
    (live2, some oldKey)
  let (live, lastRoot) := match b.parent with
    | some pak =>
      if mapHas live pak then
        (mapUpd live pak (fun pb =>
          { pb with children := immutableIndexSet pb.children oldKey key }),
         st.lastRootKey)
      else rootCase
    | none => rootCase
  -- children handling (lines 92–102); note that the absent-child branch
  -- filters the *snapshot* children list `b.children`, not the live one.
  let live := b.children.foldl (fun live ck =>
    if mapHas live ck then
      mapUpd live ck (fun chb => { chb with parent := some key })
    else
      mapUpd live oldKey (fun cb =>
        { cb with children := b.children.filter (fun c => c ≠ ck) })) live
  { live := live, newKeysRef := ref, lastRootKey := lastRoot,
    counter := st.counter + 1 }

/-- `randomizeContentBlockNodeKeys` (source lines 25–111): the `forEach`
pass over the snapshot entries, then the rebuild keyed by the new keys. -/
def randomizeContentBlockNodeKeys (fresh : Nat → K)
    (blockMap : List (K × ContentBlockNode K)) :
    List (K × ContentBlockNode K) :=
  let final := blockMap.foldl (fun st e => nodeRekeyStep fresh st e.2)
    { live := blockMap, newKeysRef := [], lastRootKey := none, counter := 0 }
  orderedMapOfEntries (final.live.map (fun e =>
    match mapGet final.newKeysRef e.2.key with
    | some nk => (nk, { e.2 with key := nk })
    | none => (e.2.key, e.2)))  -- unreachable: every visited key is mapped

/-- `randomizeContentBlockKeys` (source lines 113–120). -/
def randomizeContentBlockKeys (fresh : Nat → K)
    (blockMap : List (K × ContentBlock K)) : List (K × ContentBlock K) :=
  orderedMapOfEntries (blockMap.enum.map (fun e =>
    (fresh e.1, { e.2.2 with key := fresh e.1 })))

/-- The two block-map shapes the dispatch of `randomizeBlockMapKeys`
distinguishes via `blockMap.first() instanceof ContentBlockNode`
(source line 123); a homogeneous map is one of the two variants. -/
inductive BlockMapInput (K : Type) where
  | flat (l : List (K × ContentBlock K))
  | tree (l : List (K × ContentBlockNode K))
deriving DecidableEq

/-- `randomizeBlockMapKeys` (source lines 122–130). -/
def randomizeBlockMapKeys (fresh : Nat → K) :
    BlockMapInput K → BlockMapInput K
  | .flat l => .flat (randomizeContentBlockKeys fresh l)
  | .tree l => .tree (randomizeContentBlockNodeKeys fresh l)

end Rekeyer

/-- Concrete key supply for the evaluation theorems. -/
def evalFresh (n : Nat) : String := "NEW" ++ toString n

/-- C1 failing input: a single tree block whose three children are all
absent from the map (a fragment boundary). -/
def c1Input : List (String × ContentBlockNode String) :=
  [("y", { key := "y", text := "root", children := ["d1", "d2", "d3"] })]

/-- C2 failing input: a single tree block with two absent children. -/
def c2Input : List (String × ContentBlockNode String) :=
  [("x", { key := "x", text := "frag", children := ["c1", "c2"] })]

/-- **C1** (code_bug evidence).  Rekeying the fragment `c1Input` must drop
all three absent children, but the absent-child branch filters the
snapshot children list anew for each absent child, so the output block
still lists the stale keys `d1` and `d2` — the parent/child structure is
not preserved up to relabeling. -/
theorem randomizeNodeKeys_retains_dangling_children :
    randomizeContentBlockNodeKeys evalFresh c1Input =
      [("NEW0", { key := "NEW0", text := "root",
                  children := ["d1", "d2"] })] ∧
    "d1" ∉ (randomizeContentBlockNodeKeys evalFresh c1Input).map Prod.fst := by
  decide

/-- **C2** (code_bug evidence).  Rekeying the fragment `c2Input` leaves the
dangling child reference `c1` in the output even though `c1` is not a key
of the produced map: dangling children are not always dropped. -/
theorem randomizeNodeKeys_dangling_child_left_in_output :
    randomizeContentBlockNodeKeys evalFresh c2Input =
      [("NEW0", { key := "NEW0", text := "frag", children := ["c1"] })] ∧
    "c1" ∉ (randomizeContentBlockNodeKeys evalFresh c2Input).map Prod.fst := by
  decide

section Composition

/-- draft-js `SelectionState`: the fields the embedded handlers read or
write. -/
structure SelectionState where
  anchorKey : String
  anchorOffset : Nat
  focusKey : String
  focusOffset : Nat
  hasFocus : Bool := false
deriving DecidableEq, Repr

/-- `selection.isCollapsed()`. -/
def SelectionState.isCollapsed (s : SelectionState) : Bool :=
  (s.anchorKey == s.focusKey) && (s.anchorOffset == s.focusOffset)

/-- Modelled from the spec: the slice of draft-js `ContentState` that the
composition handler manipulates (`ContentState` and `DraftModifier` are not
among the sources; spec §6 lists the consumed operations).  A single text
buffer plus the recorded `selectionBefore`/`selectionAfter` bookkeeping. -/
structure ContentState where
  text : String
  selectionBefore : SelectionState
  selectionAfter : SelectionState
deriving DecidableEq, Repr

/-- Modelled from the spec: `DraftModifier.removeRange` deletes the selected
range from the content; the recorded selection-after is collapsed at the
start of the removed range, which is what lets the later insertion "use the
selection resulting from that removal" (spec §4.2 step 5).  The removal
direction only affects entity bookkeeping, which is not modelled. -/
def removeRange (c : ContentState) (sel : SelectionState) (_dir : String) :
    ContentState :=
  let s := min sel.anchorOffset sel.focusOffset
  let e := max sel.anchorOffset sel.focusOffset
  { text := c.text.take s ++ c.text.drop e,
    selectionBefore := sel,
    selectionAfter := { sel with anchorOffset := s, focusOffset := s } }

/-- Modelled from the spec: `DraftModifier.replaceText` replaces the
selected range with `chars`, carrying the captured style and entity
(spec §4.2 step 6); selection-after is collapsed at the end of the inserted
text. -/
def replaceText (c : ContentState) (sel : SelectionState) (chars : String)
    (_style : List String) (_entity : Option String) : ContentState :=
  let s := min sel.anchorOffset sel.focusOffset
  let e := max sel.anchorOffset sel.focusOffset
  { text := c.text.take s ++ chars ++ c.text.drop e,
    selectionBefore := sel,
    selectionAfter := { sel with anchorOffset := s + chars.length,
                                 focusOffset := s + chars.length } }

/-- The module-level composition state of `DraftEditorCompositionHandler`
(source lines 45–49).  `setTimeoutId` is modelled by the explicit
timer-fire function `endTimerFire` below. -/
structure CompositionState where
  resolved : Bool
  stillComposing : Bool
  textInputData : String
  formerTextInputData : String
deriving DecidableEq, Repr

/-- Everything `resolveComposition` reads outside the module state: the
editor snapshot (selection, content, current inline style), the results of
the external helpers `getEntityKeyForSelection` and
`isSelectionAtLeafStart` (not among the sources), the host-observed native
DOM selection offsets (`window.getSelection()`), and the `UserAgent`
Android flag. -/
structure ResolveContext where
  selection : SelectionState
  content : ContentState
  currentStyle : List String
  entityKey : Option String
  selectionAtLeafStart : Bool
  domAnchorOffset : Nat
  domFocusOffset : Nat
  isAndroid : Bool
deriving DecidableEq, Repr

/-- The observable calls a resolution issues, in order: the host calls
`restoreEditorDOM` / `exitCurrentMode`, the `DraftModifier` invocations,
and the `editor.update` commits (either an `EditorState.push` tagged with a
change type, or an `EditorState.set` carrying `nativelyRenderedContent:
null` and `forceSelection: true`). -/
inductive ResolveCall where
  | restoreDOM
  | exitMode
  | removeRangeCall (sel : SelectionState) (dir : String)
  | replaceTextCall (sel : SelectionState) (chars : String)
      (style : List String) (entity : Option String)
  | updatePush (content : ContentState) (changeType : String)
  | updateSet (nativelyRenderedContentCleared forceSelection : Bool)
deriving DecidableEq, Repr

/-- The `mustReset` condition (source lines 190–194). -/
def mustReset (s : CompositionState) (ctx : ResolveContext) : Bool :=
  (s.textInputData == "") || ctx.selectionAtLeafStart ||
    !ctx.currentStyle.isEmpty || ctx.entityKey.isSome

/-- The Android speculative-removal guard
`isAndroid && formerComposedChars && selection.isCollapsed()` (line 204). -/
def androidRemoval (s : CompositionState) (ctx : ResolveContext) : Bool :=
  ctx.isAndroid && (s.formerTextInputData != "") && ctx.selection.isCollapsed

/-- The removal selection (lines 205–209): the anchor offset is pulled back
by `formerComposedChars.length`, clamped at zero. -/
def toRemoveSel (s : CompositionState) (ctx : ResolveContext) :
    SelectionState :=
  let a : Int :=
    (ctx.selection.anchorOffset : Int) - (s.formerTextInputData.length : Int)
  let a := if a < 0 then 0 else a
  { ctx.selection with anchorOffset := a.toNat }

/-- Content after the (possible) Android speculative removal
(lines 202–216). -/
def contentAfterRemoval (s : CompositionState) (ctx : ResolveContext) :
    ContentState :=
  if androidRemoval s ctx then
    removeRange ctx.content (toRemoveSel s ctx) "backward"
  else ctx.content

/-- Selection after the (possible) Android speculative removal
(line 215). -/
def selectionAfterRemoval (s : CompositionState) (ctx : ResolveContext) :
    SelectionState :=
  if androidRemoval s ctx then
    (removeRange ctx.content (toRemoveSel s ctx) "backward").selectionAfter
  else ctx.selection

/-- The content produced by the `replaceText` insertion (lines 221–227). -/
def insertedContent (s : CompositionState) (ctx : ResolveContext) :
    ContentState :=
  replaceText (contentAfterRemoval s ctx) (selectionAfterRemoval s ctx)
    s.textInputData ctx.currentStyle ctx.entityKey

/-- The Android under-rendering remap guard (line 229). -/
def remapCond (s : CompositionState) (ctx : ResolveContext) : Bool :=
  ctx.isAndroid &&
    decide (ctx.domAnchorOffset <
      (insertedContent s ctx).selectionAfter.anchorOffset)

/-- The content actually pushed (lines 229–237): when the model reflects
more characters than the host rendered, the recorded selection-after is
rebuilt from the host-observed offsets via `startOffset = min(anchor,
focus)` and `endOffset = startOffset + |focus - anchor|`. -/
def pushedContent (s : CompositionState) (ctx : ResolveContext) :
    ContentState :=
  let c := insertedContent s ctx
  if remapCond s ctx then
    let startOffset := min ctx.domAnchorOffset ctx.domFocusOffset
    let endOffset :=
      startOffset + Nat.dist ctx.domFocusOffset ctx.domAnchorOffset
    { c with selectionBefore := c.selectionAfter,
             selectionAfter := { selectionAfterRemoval s ctx with
                                 anchorOffset := startOffset,
                                 focusOffset := endOffset } }
  else c

/-- The ordered call trace of a `resolveComposition` run that passes the
`stillComposing` guard (lines 167–251). -/
def resolveCalls (s : CompositionState) (ctx : ResolveContext) :
    List ResolveCall :=
  (if mustReset s ctx then [.restoreDOM] else []) ++ [.exitMode] ++
  (if androidRemoval s ctx then
    [.removeRangeCall (toRemoveSel s ctx) "backward"] else []) ++
  (if s.textInputData != "" then
    [.replaceTextCall (selectionAfterRemoval s ctx) s.textInputData
       ctx.currentStyle ctx.entityKey,
     .updatePush (pushedContent s ctx) "insert-characters"]
   else if mustReset s ctx then [.updateSet true true]
   else [])

/-- `resolveComposition` (source lines 162–252): a no-op while still
composing; otherwise marks the session resolved, drains both buffers and
issues the calls of `resolveCalls`. -/
def resolveComposition (s : CompositionState) (ctx : ResolveContext) :
    CompositionState × List ResolveCall :=
  if s.stillComposing then (s, [])
  else
    ({ s with resolved := true, textInputData := "",
              formerTextInputData := "" },
     resolveCalls s ctx)

/-- `onBeforeInput` (source lines 52–54). -/
def onBeforeInput (s : CompositionState) (data : String) : CompositionState :=
  { s with textInputData := s.textInputData ++ data }

/-- `onCompositionStart` (source lines 60–63). -/
def onCompositionStart (s : CompositionState) (data : String) :
    CompositionState :=
  { s with formerTextInputData := data, stillComposing := true }

/-- `onCompositionEnd` (source lines 105–113): clears the flags; the armed
`RESOLVE_DELAY` timer is modelled by `endTimerFire`. -/
def onCompositionEnd (s : CompositionState) : CompositionState :=
  { s with resolved := false, stillComposing := false }

/-- The body of the timer armed by `onCompositionEnd` (lines 108–112):
soft-cancelled through the `resolved` flag, never hard-cancelled. -/
def endTimerFire (s : CompositionState) (ctx : ResolveContext) :
    CompositionState × List ResolveCall :=
  if s.resolved then (s, []) else resolveComposition s ctx

/-- A call that commits a new editor state (`editor.update`). -/
def ResolveCall.isUpdate : ResolveCall → Bool
  | .updatePush _ _ => true
  | .updateSet _ _ => true
  | _ => false

/-- A call that commits a document edit (an `EditorState.push`). -/
def ResolveCall.isPush : ResolveCall → Bool
  | .updatePush _ _ => true
  | _ => false

/-- Number of `editor.update` calls in a trace. -/
def countUpdates (l : List ResolveCall) : Nat :=
  (l.filter ResolveCall.isUpdate).length

/-- Number of document edits (pushes) in a trace. -/
def countPush (l : List ResolveCall) : Nat :=
  (l.filter ResolveCall.isPush).length

end Composition

/-- Any single resolution that passes the guard pushes a document edit
exactly when the drained `composedChars` is non-empty. -/
theorem countPush_resolveCalls (s : CompositionState) (ctx : ResolveContext) :
    countPush (resolveCalls s ctx) = if s.textInputData = "" then 0 else 1 := by
  unfold countPush resolveCalls
  by_cases ht : s.textInputData = ""
  · simp [ht, List.filter_append, ResolveCall.isPush]
  · simp [ht, List.filter_append, ResolveCall.isPush]
    split <;> split <;> simp [ResolveCall.isPush]

/-- Any single resolution that passes the guard commits exactly one
`editor.update`: the push when `composedChars` is non-empty, otherwise the
reset update (the empty-`composedChars` disjunct forces `mustReset`). -/
theorem countUpdates_resolveCalls (s : CompositionState)
    (ctx : ResolveContext) :
    countUpdates (resolveCalls s ctx) = 1 := by
  unfold countUpdates resolveCalls
  by_cases ht : s.textInputData = ""
  · have hm : mustReset s ctx = true := by simp [mustReset, ht]
    simp [ht, hm, List.filter_append, ResolveCall.isUpdate]
  · simp [ht, List.filter_append, ResolveCall.isUpdate]
    split <;> split <;> simp [ResolveCall.isUpdate]

/-- **C3**: once a first resolution has completed (flags set, buffers
drained), re-invocation applies no further document edit: the first run
pushes at most one edit, the guarded end-timer re-entry is a complete
no-op (absorbed via `resolved`), and even a direct second
`resolveComposition` call pushes nothing (its `composedChars` is empty, so
only the reset path can run). -/
theorem resolveComposition_second_invocation_no_edit
    (s : CompositionState) (ctx ctx2 : ResolveContext)
    (h : s.stillComposing = false) :
    countPush (resolveComposition s ctx).2 ≤ 1 ∧
    endTimerFire (resolveComposition s ctx).1 ctx2 =
      ((resolveComposition s ctx).1, []) ∧
    countPush (resolveComposition (resolveComposition s ctx).1 ctx2).2 = 0 := by
  have h1 : resolveComposition s ctx =
      ({ s with resolved := true, textInputData := "",
                formerTextInputData := "" }, resolveCalls s ctx) := by
    simp [resolveComposition, h]
  refine ⟨?_, ?_, ?_⟩
  · rw [h1]
    simp only [countPush_resolveCalls]
    split <;> omega
  · rw [h1]
    simp [endTimerFire]
  · rw [h1]
    simp [resolveComposition, h, countPush_resolveCalls]

/-- **C4**: a `compositionstart` arriving after `compositionend` but before
the armed `RESOLVE_DELAY` timer fires makes that firing a complete no-op
(`stillComposing` is true again at fire time): no call is issued, the
session state — including the input buffer accumulated before the race —
is untouched, and the session continues composing. -/
theorem compositionStart_race_timer_noop
    (s : CompositionState) (b d : String) (ctx : ResolveContext) :
    (onCompositionStart (onBeforeInput (onCompositionEnd s) b) d).stillComposing
        = true ∧
    endTimerFire (onCompositionStart (onBeforeInput (onCompositionEnd s) b) d)
        ctx =
      (onCompositionStart (onBeforeInput (onCompositionEnd s) b) d, []) ∧
    (onCompositionStart (onBeforeInput (onCompositionEnd s) b) d).textInputData
        = s.textInputData ++ b := by
  refine ⟨rfl, ?_, rfl⟩
  simp [endTimerFire, onCompositionStart, onBeforeInput, onCompositionEnd,
    resolveComposition]

/-- **C5**: in a run past the `stillComposing` guard, `mustReset` holds
exactly when `composedChars` is empty, the selection sits at the start of
an inline leaf, the inline style set is non-empty, or an entity key is
active; and when it holds the rendered surface is restored
(`restoreEditorDOM`) strictly before the unconditional
`exitCurrentMode`. -/
theorem mustReset_iff_and_restore_before_exit
    (s : CompositionState) (ctx : ResolveContext)
    (h : s.stillComposing = false) :
    (mustReset s ctx = true ↔
      (s.textInputData = "" ∨ ctx.selectionAtLeafStart = true ∨
        ctx.currentStyle ≠ [] ∨ ctx.entityKey ≠ none)) ∧
    (mustReset s ctx = true →
      ∃ rest, (resolveComposition s ctx).2 =
        ResolveCall.restoreDOM :: ResolveCall.exitMode :: rest) ∧
    (mustReset s ctx = false →
      ∃ rest, (resolveComposition s ctx).2 =
        ResolveCall.exitMode :: rest ∧ ResolveCall.restoreDOM ∉ rest) := by
  refine ⟨?_, ?_, ?_⟩
  · unfold mustReset
    cases hek : ctx.entityKey <;>
      simp [hek, List.isEmpty_iff, Bool.or_eq_true, beq_iff_eq, or_assoc]
  · intro hm
    simp [resolveComposition, h, resolveCalls, hm]
  · intro hm
    simp only [resolveComposition, h, Bool.false_eq_true, if_false,
      resolveCalls, hm, List.nil_append, List.cons_append]
    refine ⟨_, rfl, ?_⟩
    have ht : ¬s.textInputData = "" := by
      intro he
      simp [mustReset, he] at hm
    simp [ht, List.mem_append]

/-- **C9**: every run past the `stillComposing` guard commits exactly one
`editor.update`: the `insert-characters` push when `composedChars` is
non-empty, otherwise the reset update (`nativelyRenderedContent` cleared,
`forceSelection` set) — the empty-`composedChars` disjunct forces
`mustReset`, so no run slips through without an update. -/
theorem resolve_emits_exactly_one_update
    (s : CompositionState) (ctx : ResolveContext)
    (h : s.stillComposing = false) :
    countUpdates (resolveComposition s ctx).2 = 1 ∧
    (s.textInputData ≠ "" →
      ResolveCall.updatePush (pushedContent s ctx) "insert-characters" ∈
        (resolveComposition s ctx).2) ∧
    (s.textInputData = "" →
      ResolveCall.updateSet true true ∈ (resolveComposition s ctx).2) := by
  refine ⟨?_, ?_, ?_⟩
  · simp [resolveComposition, h, countUpdates_resolveCalls]
  · intro ht
    simp [resolveComposition, h, resolveCalls, ht]
  · intro ht
    have hm : mustReset s ctx = true := by simp [mustReset, ht]
    simp [resolveComposition, h, resolveCalls, ht, hm]

/-- Shared concrete fixture: a selection collapsed at offset 6. -/
def witSel : SelectionState :=
  { anchorKey := "blk", anchorOffset := 6, focusKey := "blk",
    focusOffset := 6, hasFocus := true }

/-- Shared concrete fixture: content carrying `witSel` as bookkeeping. -/
def witContent : ContentState :=
  { text := "hello copy", selectionBefore := witSel, selectionAfter := witSel }

/-- Shared concrete fixture: a module state that has left composition with
buffered input `"가"` and former delta `"ㄱ"`. -/
def witState : CompositionState :=
  { resolved := false, stillComposing := false, textInputData := "가",
    formerTextInputData := "ㄱ" }

/-- Shared concrete fixture: a non-Android resolve context. -/
def witCtx : ResolveContext :=
  { selection := witSel, content := witContent, currentStyle := [],
    entityKey := none, selectionAtLeafStart := false, domAnchorOffset := 7,
    domFocusOffset := 7, isAndroid := false }

/-- Shared concrete fixture: the Android variant of `witCtx`. -/
def witCtxAndroid : ResolveContext :=
  { witCtx with isAndroid := true }

/-- Witness for C3 at the concrete fixture. -/
theorem resolveComposition_second_invocation_no_edit_witness :
    witState.stillComposing = false ∧
    (countPush (resolveComposition witState witCtx).2 ≤ 1 ∧
     endTimerFire (resolveComposition witState witCtx).1 witCtxAndroid =
       ((resolveComposition witState witCtx).1, []) ∧
     countPush
       (resolveComposition (resolveComposition witState witCtx).1
         witCtxAndroid).2 = 0) :=
  ⟨by decide,
   resolveComposition_second_invocation_no_edit witState witCtx witCtxAndroid
     (by decide)⟩

/-- Witness for C5 at the concrete fixture. -/
theorem mustReset_iff_and_restore_before_exit_witness :
    witState.stillComposing = false ∧
    ((mustReset witState witCtx = true ↔
       (witState.textInputData = "" ∨ witCtx.selectionAtLeafStart = true ∨
         witCtx.currentStyle ≠ [] ∨ witCtx.entityKey ≠ none)) ∧
     (mustReset witState witCtx = true →
       ∃ rest, (resolveComposition witState witCtx).2 =
         ResolveCall.restoreDOM :: ResolveCall.exitMode :: rest) ∧
     (mustReset witState witCtx = false →
       ∃ rest, (resolveComposition witState witCtx).2 =
         ResolveCall.exitMode :: rest ∧ ResolveCall.restoreDOM ∉ rest)) :=
  ⟨by decide,
   mustReset_iff_and_restore_before_exit witState witCtx (by decide)⟩

/-- Witness for C9 at the concrete fixture. -/
theorem resolve_emits_exactly_one_update_witness :
    witState.stillComposing = false ∧
    (countUpdates (resolveComposition witState witCtx).2 = 1 ∧
     (witState.textInputData ≠ "" →
       ResolveCall.updatePush (pushedContent witState witCtx)
         "insert-characters" ∈ (resolveComposition witState witCtx).2) ∧
     (witState.textInputData = "" →
       ResolveCall.updateSet true true ∈
         (resolveComposition witState witCtx).2)) :=
  ⟨by decide, resolve_emits_exactly_one_update witState witCtx (by decide)⟩

/-- **C6**: on Android, when the former delta is non-empty and the model
selection is collapsed, the resolution issues a backward `removeRange`
whose range ends at the current anchor offset and starts
`len(formerChars)` characters earlier clamped at zero, before any
insertion; when `composedChars` is non-empty the subsequent `replaceText`
uses exactly the selection produced by that removal. -/
theorem android_speculative_removal_range
    (s : CompositionState) (ctx : ResolveContext)
    (h : s.stillComposing = false) (ha : ctx.isAndroid = true)
    (hf : s.formerTextInputData ≠ "")
    (hc : ctx.selection.isCollapsed = true) :
    ∃ pre post,
      (resolveComposition s ctx).2 =
        pre ++ ResolveCall.removeRangeCall (toRemoveSel s ctx) "backward"
          :: post ∧
      (∀ c ∈ pre, c = ResolveCall.restoreDOM ∨ c = ResolveCall.exitMode) ∧
      ((toRemoveSel s ctx).anchorOffset : Int) =
        max 0 ((ctx.selection.anchorOffset : Int) -
          (s.formerTextInputData.length : Int)) ∧
      (toRemoveSel s ctx).focusOffset = ctx.selection.anchorOffset ∧
      (s.textInputData ≠ "" →
        post =
          [ResolveCall.replaceTextCall
             (removeRange ctx.content (toRemoveSel s ctx)
               "backward").selectionAfter
             s.textInputData ctx.currentStyle ctx.entityKey,
           ResolveCall.updatePush (pushedContent s ctx)
             "insert-characters"]) := by
  have hrem : androidRemoval s ctx = true := by
    simp [androidRemoval, ha, hf, hc]
  refine ⟨(if mustReset s ctx then [ResolveCall.restoreDOM] else []) ++
            [ResolveCall.exitMode],
          (if s.textInputData != "" then
            [ResolveCall.replaceTextCall (selectionAfterRemoval s ctx)
               s.textInputData ctx.currentStyle ctx.entityKey,
             ResolveCall.updatePush (pushedContent s ctx)
               "insert-characters"]
           else if mustReset s ctx then [ResolveCall.updateSet true true]
           else []),
          ?_, ?_, ?_, ?_, ?_⟩
  · simp [resolveComposition, h, resolveCalls, hrem, List.append_assoc]
  · intro c hmem
    rcases List.mem_append.mp hmem with h1 | h1
    · left
      revert h1
      split <;> simp_all
    · right
      simpa using h1
  · unfold toRemoveSel
    simp only
    split <;> omega
  · have hco : ctx.selection.anchorOffset = ctx.selection.focusOffset := by
      simp [SelectionState.isCollapsed] at hc
      exact hc.2
    simp [toRemoveSel, hco]
  · intro ht
    simp [ht, selectionAfterRemoval, hrem]

/-- Witness for C6 at the Android fixture. -/
theorem android_speculative_removal_range_witness :
    witState.stillComposing = false ∧ witCtxAndroid.isAndroid = true ∧
    witState.formerTextInputData ≠ "" ∧
    witCtxAndroid.selection.isCollapsed = true ∧
    (∃ pre post,
      (resolveComposition witState witCtxAndroid).2 =
        pre ++ ResolveCall.removeRangeCall (toRemoveSel witState witCtxAndroid)
          "backward" :: post ∧
      (∀ c ∈ pre, c = ResolveCall.restoreDOM ∨ c = ResolveCall.exitMode) ∧
      ((toRemoveSel witState witCtxAndroid).anchorOffset : Int) =
        max 0 ((witCtxAndroid.selection.anchorOffset : Int) -
          (witState.formerTextInputData.length : Int)) ∧
      (toRemoveSel witState witCtxAndroid).focusOffset =
        witCtxAndroid.selection.anchorOffset ∧
      (witState.textInputData ≠ "" →
        post =
          [ResolveCall.replaceTextCall
             (removeRange witCtxAndroid.content
               (toRemoveSel witState witCtxAndroid) "backward").selectionAfter
             witState.textInputData witCtxAndroid.currentStyle
             witCtxAndroid.entityKey,
           ResolveCall.updatePush (pushedContent witState witCtxAndroid)
             "insert-characters"])) :=
  ⟨by decide, by decide, by decide, by decide,
   android_speculative_removal_range witState witCtxAndroid (by decide)
     (by decide) (by decide) (by decide)⟩

/-- C7 counterexample fixture: module state with composed text `"x"` and no
former delta. -/
def cexState : CompositionState :=
  { resolved := false, stillComposing := false, textInputData := "x",
    formerTextInputData := "" }

/-- C7 counterexample fixture: an Android context whose host-observed
native selection is backward (anchor 5, focus 2) while the model selection
sits collapsed at offset 10. -/
def cexCtx : ResolveContext :=
  { selection := { anchorKey := "b", anchorOffset := 10, focusKey := "b",
                   focusOffset := 10, hasFocus := true },
    content := { text := "0123456789ab",
                 selectionBefore := { anchorKey := "b", anchorOffset := 10,
                                      focusKey := "b", focusOffset := 10,
                                      hasFocus := true },
                 selectionAfter := { anchorKey := "b", anchorOffset := 10,
                                     focusKey := "b", focusOffset := 10,
                                     hasFocus := true } },
    currentStyle := [], entityKey := none, selectionAtLeafStart := false,
    domAnchorOffset := 5, domFocusOffset := 2, isAndroid := true }

/-- **C7, counterexample**: every trigger condition of the claim holds at
the fixture (Android, non-empty insertion, model anchor 11 exceeding the
host-observed anchor 5), yet the recorded selection-after of the emitted
edit is `(2, 5)` — the *normalized* host offsets — not the host-observed
`(anchor 5, focus 2)` pair the claim asserts. -/
theorem selection_remap_backward_dom_counterexample :
    cexCtx.isAndroid = true ∧ cexState.textInputData ≠ "" ∧
    cexCtx.domAnchorOffset <
      (insertedContent cexState cexCtx).selectionAfter.anchorOffset ∧
    ResolveCall.updatePush (pushedContent cexState cexCtx)
      "insert-characters" ∈ (resolveComposition cexState cexCtx).2 ∧
    ¬((pushedContent cexState cexCtx).selectionAfter.anchorOffset =
        cexCtx.domAnchorOffset ∧
      (pushedContent cexState cexCtx).selectionAfter.focusOffset =
        cexCtx.domFocusOffset) := by
  decide

/-- **C7 (amended)**: on Android, for a resolution inserting non-empty
`composedChars`, when the model anchor after insertion exceeds the
host-observed anchor, the emitted edit's recorded selection-after is
rebuilt from the host-observed offsets *normalized to forward order*
(anchor = min of the two observed offsets, focus = max) — equal to the
observed (anchor, focus) pair exactly when the observed selection is not
backward; otherwise the model-computed selection-after is kept. -/
theorem selection_remap_normalized
    (s : CompositionState) (ctx : ResolveContext)
    (h : s.stillComposing = false) (ha : ctx.isAndroid = true)
    (ht : s.textInputData ≠ "") :
    ResolveCall.updatePush (pushedContent s ctx) "insert-characters" ∈
      (resolveComposition s ctx).2 ∧
    (pushedContent s ctx).selectionAfter =
      (if ctx.domAnchorOffset <
          (insertedContent s ctx).selectionAfter.anchorOffset then
        { selectionAfterRemoval s ctx with
          anchorOffset := min ctx.domAnchorOffset ctx.domFocusOffset,
          focusOffset := max ctx.domAnchorOffset ctx.domFocusOffset }
      else (insertedContent s ctx).selectionAfter) := by
  constructor
  · simp [resolveComposition, h, resolveCalls, ht]
  · unfold pushedContent remapCond
    simp only [ha, Bool.true_and]
    by_cases hgt : ctx.domAnchorOffset <
        (insertedContent s ctx).selectionAfter.anchorOffset
    · have hd : min ctx.domAnchorOffset ctx.domFocusOffset +
          Nat.dist ctx.domFocusOffset ctx.domAnchorOffset =
          max ctx.domAnchorOffset ctx.domFocusOffset := by
        simp [Nat.dist]
        omega
      simp [hgt, hd]
    · simp [hgt]

/-- Witness for the amended C7 at the Android fixture. -/
theorem selection_remap_normalized_witness :
    witState.stillComposing = false ∧ witCtxAndroid.isAndroid = true ∧
    witState.textInputData ≠ "" ∧
    (ResolveCall.updatePush (pushedContent witState witCtxAndroid)
        "insert-characters" ∈ (resolveComposition witState witCtxAndroid).2 ∧
     (pushedContent witState witCtxAndroid).selectionAfter =
       (if witCtxAndroid.domAnchorOffset <
           (insertedContent witState witCtxAndroid).selectionAfter.anchorOffset
        then
         { selectionAfterRemoval witState witCtxAndroid with
           anchorOffset :=
             min witCtxAndroid.domAnchorOffset witCtxAndroid.domFocusOffset,
           focusOffset :=
             max witCtxAndroid.domAnchorOffset witCtxAndroid.domFocusOffset }
        else (insertedContent witState witCtxAndroid).selectionAfter)) :=
  ⟨by decide, by decide, by decide,
   selection_remap_normalized witState witCtxAndroid (by decide) (by decide)
     (by decide)⟩

section RekeyerTheorems

variable {K : Type} [DecidableEq K]

/-- `mapHas` detects exactly the keys of the association list. -/
theorem mapHas_iff (m : List (K × α)) (k : K) :
    mapHas m k = true ↔ k ∈ m.map Prod.fst := by
  induction m with
  | nil => simp [mapHas, mapGet]
  | cons e tl ih =>
    by_cases he : e.1 = k
    · simp [mapHas, mapGet, he]
    · simp only [mapHas, mapGet, he, if_false, List.map_cons,
        List.mem_cons] at ih ⊢
      simp [ih, Ne.symm he]

/-- When the entry keys are pairwise distinct, `OrderedMap(entries)`
keeps the entry list exactly (generalized over the fold accumulator). -/
theorem orderedMapOfEntries_aux (l : List (K × α)) :
    ∀ acc : List (K × α), (((acc ++ l).map Prod.fst).Nodup) →
    (l.foldl (fun acc e =>
      if mapHas acc e.1 then mapUpd acc e.1 (fun _ => e.2) else acc ++ [e])
      acc) = acc ++ l := by
  induction l with
  | nil => intro acc _; simp
  | cons e tl ih =>
    intro acc h
    have hmem : e.1 ∉ acc.map Prod.fst := by
      rw [List.map_append, List.nodup_append] at h
      intro hc
      exact h.2.2 hc (by simp)
    have hk : mapHas acc e.1 = false := by
      rw [Bool.eq_false_iff]
      intro hc
      exact hmem ((mapHas_iff acc e.1).mp hc)
    have hassoc : (acc ++ [e]) ++ tl = acc ++ e :: tl := by
      simp
    rw [List.foldl_cons, hk]
    simp only [Bool.false_eq_true, if_false]
    rw [ih (acc ++ [e]) (by rw [hassoc]; exact h), hassoc]

/-- With pairwise-distinct keys, `orderedMapOfEntries` is the identity. -/
theorem orderedMapOfEntries_eq_self (l : List (K × α))
    (h : (l.map Prod.fst).Nodup) : orderedMapOfEntries l = l := by
  unfold orderedMapOfEntries
  simpa using orderedMapOfEntries_aux l [] (by simpa using h)

/-- **C8**: flat rekeying goes through the flat branch of the dispatch and
— provided the key supply is injective and avoids every original key —
preserves the entry count, the per-position block texts, and map order,
while producing pairwise-distinct keys disjoint from the original keys. -/
theorem flat_rekey_preserves_and_freshens (fresh : Nat → K)
    (l : List (K × ContentBlock K)) (hinj : Function.Injective fresh)
    (hfresh : ∀ n, fresh n ∉ l.map Prod.fst) :
    randomizeBlockMapKeys fresh (BlockMapInput.flat l) =
      BlockMapInput.flat (randomizeContentBlockKeys fresh l) ∧
    (randomizeContentBlockKeys fresh l).length = l.length ∧
    (randomizeContentBlockKeys fresh l).map (fun e => e.2.text) =
      l.map (fun e => e.2.text) ∧
    ((randomizeContentBlockKeys fresh l).map Prod.fst).Nodup ∧
    ∀ k ∈ (randomizeContentBlockKeys fresh l).map Prod.fst,
      k ∉ l.map Prod.fst := by
  have hkeys : (l.enum.map (fun e =>
      ((fresh e.1 : K), ({ e.2.2 with key := fresh e.1 } : ContentBlock K)))).map
        Prod.fst = (List.range l.length).map fresh := by
    rw [List.map_map]
    have hcomp : (Prod.fst ∘ fun e : Nat × (K × ContentBlock K) =>
        ((fresh e.1 : K), ({ e.2.2 with key := fresh e.1 } : ContentBlock K)))
        = fresh ∘ Prod.fst := rfl
    rw [hcomp, ← List.map_map, List.enum_map_fst]
  have hnodup : ((List.range l.length).map fresh).Nodup :=
    (List.nodup_range _).map hinj
  have hid : randomizeContentBlockKeys fresh l =
      l.enum.map (fun e =>
        ((fresh e.1 : K), ({ e.2.2 with key := fresh e.1 } : ContentBlock K))) := by
    unfold randomizeContentBlockKeys
    exact orderedMapOfEntries_eq_self _ (by rw [hkeys]; exact hnodup)
  refine ⟨rfl, ?_, ?_, ?_, ?_⟩
  · rw [hid]
    simp
  · rw [hid, List.map_map]
    have hcomp : ((fun e : K × ContentBlock K => e.2.text) ∘
        fun e : Nat × (K × ContentBlock K) =>
          ((fresh e.1 : K), ({ e.2.2 with key := fresh e.1 } : ContentBlock K)))
        = (fun e : K × ContentBlock K => e.2.text) ∘ Prod.snd := rfl
    rw [hcomp, ← List.map_map, List.enum_map_snd]
  · rw [hid, hkeys]
    exact hnodup
  · intro k hk
    rw [hid, hkeys] at hk
    obtain ⟨n, _, rfl⟩ := List.mem_map.mp hk
    exact hfresh n

end RekeyerTheorems

/-- Scenario-A-shaped concrete fixture (numeric keys). -/
def flatFixture : List (Nat × ContentBlock Nat) :=
  [(0, { key := 0, text := "Hi" }), (1, { key := 1, text := "Bye" })]

/-- Witness for C8 at the Scenario-A fixture with key supply `n + 2`. -/
theorem flat_rekey_preserves_and_freshens_witness :
    Function.Injective (fun n : Nat => n + 2) ∧
    (∀ n : Nat, n + 2 ∉ flatFixture.map Prod.fst) ∧
    (randomizeBlockMapKeys (fun n : Nat => n + 2)
        (BlockMapInput.flat flatFixture) =
      BlockMapInput.flat
        (randomizeContentBlockKeys (fun n : Nat => n + 2) flatFixture) ∧
     (randomizeContentBlockKeys (fun n : Nat => n + 2) flatFixture).length =
       flatFixture.length ∧
     (randomizeContentBlockKeys (fun n : Nat => n + 2) flatFixture).map
         (fun e => e.2.text) = flatFixture.map (fun e => e.2.text) ∧
     (((randomizeContentBlockKeys (fun n : Nat => n + 2) flatFixture).map
         Prod.fst).Nodup) ∧
     ∀ k ∈ (randomizeContentBlockKeys (fun n : Nat => n + 2) flatFixture).map
         Prod.fst, k ∉ flatFixture.map Prod.fst) := by
  have hinj : Function.Injective (fun n : Nat => n + 2) := by
    intro a b hab
    simpa using hab
  have hfr : ∀ n : Nat, n + 2 ∉ flatFixture.map Prod.fst := by
    intro n hn
    simp [flatFixture] at hn
  exact ⟨hinj, hfr,
    flat_rekey_preserves_and_freshens (fun n : Nat => n + 2) flatFixture
      hinj hfr⟩

section Focus

/-- Modelled from the spec: the slice of `EditorState` that `editOnFocus`
manipulates (`EditorState` is not among the sources) — the current
selection, the force-selection flag, and an opaque content tag standing
for the untouched remainder of the state. -/
structure FocusEditorState where
  contentTag : String
  selection : SelectionState
  forceSelection : Bool
deriving DecidableEq, Repr

/-- Modelled from the spec: `EditorState.forceSelection` force-applies the
given selection onto the model so "the host returns to the correct caret
position rather than resetting to document start" (spec §6). -/
def forceSelection (es : FocusEditorState) (sel : SelectionState) :
    FocusEditorState :=
  { es with selection := sel, forceSelection := true }

/-- The editor record `editOnFocus` consumes: its latest state and whether
the user supplied an `onFocus` prop. -/
structure FocusEditor where
  editorState : FocusEditorState
  hasOnFocus : Bool
deriving DecidableEq, Repr

/-- The calls `editOnFocus` can issue, in order: the optional user
`onFocus` callback and the `editor.update` commit. -/
inductive FocusCall where
  | onFocusCallback
  | update (es : FocusEditorState)
deriving DecidableEq, Repr

/-- `editOnFocus` (source lines 19–32). -/
def editOnFocus (editor : FocusEditor) : List FocusCall :=
  let editorState := editor.editorState
  let currentSelection := editorState.selection
  if currentSelection.hasFocus then []
  else
    let selection := { currentSelection with hasFocus := true }
    (if editor.hasOnFocus then [FocusCall.onFocusCallback] else []) ++
      [FocusCall.update (forceSelection editorState selection)]

end Focus

/-- **C10**: when the model selection already carries the focus flag,
`editOnFocus` issues nothing (editor state untouched); otherwise it issues
exactly one update — preceded, when present, by the user `onFocus`
callback — whose committed state force-applies the prior selection with
the focus flag set and leaves the rest of the state unchanged. -/
theorem editOnFocus_focus_flag_update (editor : FocusEditor) :
    if editor.editorState.selection.hasFocus = true then
      editOnFocus editor = []
    else
      ∃ es,
        editOnFocus editor =
          (if editor.hasOnFocus then [FocusCall.onFocusCallback] else []) ++
            [FocusCall.update es] ∧
        es.selection =
          { editor.editorState.selection with hasFocus := true } ∧
        es.forceSelection = true ∧
        es.contentTag = editor.editorState.contentTag := by
  by_cases hf : editor.editorState.selection.hasFocus = true
  · simp only [hf, if_true]
    simp [editOnFocus, hf]
  · simp only [hf, if_false]
    refine ⟨forceSelection editor.editorState
      { editor.editorState.selection with hasFocus := true }, ?_, rfl, rfl,
      rfl⟩
    simp [editOnFocus, hf]
